import Mathlib

/-!
Verification of the eos_exporter parsing/process core (eosclient package).

The Go source is embedded shallowly: strings become `List Char`, Go maps become
association lists with Go-map insert/lookup semantics, and code that can panic
(index out of range, nil results) returns `Option`.  Every definition is a
direct transcription of the corresponding Go function; the doc comment of each
definition names the function it embeds.
-/

namespace EosExporter

/-- Strings are modelled as lists of characters. -/
abbrev Str := List Char

/-! ## Character classes from Go's unicode package -/

/-- Embeds Go `unicode.IsSpace`: the Latin-1 white space characters plus the
Unicode White_Space property ranges. -/
def isGoSpace (c : Char) : Bool :=
  c = ' ' || c = Char.ofNat 9 || c = Char.ofNat 10 || c = Char.ofNat 11 ||
  c = Char.ofNat 12 || c = Char.ofNat 13 || c = Char.ofNat 0x85 || c = Char.ofNat 0xA0 ||
  c = Char.ofNat 0x1680 || (Char.ofNat 0x2000 ≤ c && c ≤ Char.ofNat 0x200A) ||
  c = Char.ofNat 0x2028 || c = Char.ofNat 0x2029 || c = Char.ofNat 0x202F ||
  c = Char.ofNat 0x205F || c = Char.ofNat 0x3000

/-- Embeds Go `unicode.In(c, unicode.Quotation_Mark)`: the code points of the
Unicode Quotation_Mark property (ASCII double and single quote among them). -/
def isQuotationMark (c : Char) : Bool :=
  c = Char.ofNat 0x22 || c = Char.ofNat 0x27 || c = Char.ofNat 0xAB || c = Char.ofNat 0xBB ||
  (Char.ofNat 0x2018 ≤ c && c ≤ Char.ofNat 0x201F) || c = Char.ofNat 0x2039 ||
  c = Char.ofNat 0x203A || c = Char.ofNat 0x2E42 ||
  (Char.ofNat 0x300C ≤ c && c ≤ Char.ofNat 0x300F) ||
  (Char.ofNat 0x301D ≤ c && c ≤ Char.ofNat 0x301F) ||
  (Char.ofNat 0xFE41 ≤ c && c ≤ Char.ofNat 0xFE44) ||
  c = Char.ofNat 0xFF02 || c = Char.ofNat 0xFF07 || c = Char.ofNat 0xFF62 || c = Char.ofNat 0xFF63

/-! ## The quote-aware field splitter of `getMap` -/

/-- Embeds the stateful closure `f` inside Go `getMap` (eos.go): given the
current `lastQuote` state (`Char.ofNat 0` = no open quote, as Go's `rune(0)`)
and the next character, returns the new state and whether the character is a
field delimiter.  The four cases are in the order of the Go `switch`. -/
def splitState (lastQuote : Char) (c : Char) : Char × Bool :=
  if c = lastQuote then (Char.ofNat 0, false)
  else if ¬(lastQuote = Char.ofNat 0) then (lastQuote, false)
  else if isQuotationMark c then (c, false)
  else (lastQuote, isGoSpace c)

/-- Embeds Go `strings.FieldsFunc` specialised to the stateful closure of
`getMap`: a single left-to-right pass that groups maximal runs of
non-delimiter characters, dropping empty fields.  `acc` holds the current
field reversed. -/
def fieldsGo (q : Char) (acc : Str) : Str → List Str
  | [] => if acc.isEmpty then [] else [acc.reverse]
  | c :: cs =>
    let p := splitState q c
    if p.2 then
      if acc.isEmpty then fieldsGo p.1 [] cs
      else acc.reverse :: fieldsGo p.1 [] cs
    else fieldsGo p.1 (c :: acc) cs

/-- The field list of one monitoring-format line, as computed by the
`strings.FieldsFunc(line, f)` call in `getMap`. -/
def fields (line : Str) : List Str := fieldsGo (Char.ofNat 0) [] line

/-! ## Go `strings.Split` -/

/-- Tests whether `s` starts with `sep`. -/
def begins : Str → Str → Bool
  | [], _ => true
  | _ :: _, [] => false
  | a :: as, b :: bs => a = b && begins as bs

/-- Fuelled worker for Go `strings.Split` with a non-empty separator: scans
left to right, splitting before each leftmost non-overlapping occurrence of
`sep`.  `acc` holds the current field reversed.  With fuel `> s.length` the
fuel never runs out (each step consumes at least one character). -/
def splitGoF (sep : Str) : Nat → Str → Str → List Str
  | 0, acc, s => [acc.reverse ++ s]
  | _ + 1, acc, [] => [acc.reverse]
  | fuel + 1, acc, c :: rest =>
    if begins sep (c :: rest) && !sep.isEmpty then
      acc.reverse :: splitGoF sep fuel [] (List.drop (sep.length - 1) rest)
    else
      splitGoF sep fuel (c :: acc) rest

/-- Embeds Go `strings.Split s sep` for the non-empty separators used in the
source (the empty-separator branch is never exercised by the code). -/
def splitSub (s sep : Str) : List Str :=
  match sep with
  | [] => [s]
  | _ :: _ => splitGoF sep (s.length + 1) [] s

/-- `Occurs sep s` states that `sep` occurs as a contiguous substring of `s`. -/
def Occurs (sep s : Str) : Prop := ∃ a b, s = a ++ sep ++ b

/-- Boolean substring test matching `Occurs`. -/
def containsSub : Str → Str → Bool
  | sep, [] => sep.isEmpty
  | sep, c :: t => begins sep (c :: t) || containsSub sep t

/-! ## The key-value map built by `getMap` -/

/-- Go maps from string to string, as insertion-ordered association lists with
distinct keys. -/
abbrev KVMap := List (Str × Str)

/-- Go map assignment `m[k] = v`: replaces the value at an existing key,
otherwise appends the new binding. -/
def mapInsert (m : KVMap) (k v : Str) : KVMap :=
  if m.any (fun p => p.1 == k) then m.map (fun p => if p.1 = k then (k, v) else p)
  else m ++ [(k, v)]

/-- Go map read `m[k]` including the zero-value (empty string) for a missing
key. -/
def mapGet (m : KVMap) (k : Str) : Str :=
  match m.find? (fun p => p.1 == k) with
  | some p => p.2
  | none => []

/-- Go comma-ok map membership `_, ok := m[k]`. -/
def mapHas (m : KVMap) (k : Str) : Bool := m.any (fun p => p.1 == k)

/-- Embeds the loop body of `getMap`: `x := strings.Split(item, "=")` followed
by the indexed accesses `x[0]` and `x[1]`.  A token in which `=` does not
occur makes `x[1]` an out-of-range access, modelled as `none`. -/
def tokenToPair (item : Str) : Option (Str × Str) :=
  match splitSub item ['='] with
  | k :: v :: _ => some (k, v)
  | _ => none

/-! ## Structural lemmas about the splitters -/

theorem begins_iff (sep s : Str) : begins sep s = true ↔ ∃ t, s = sep ++ t := by
  induction sep generalizing s with
  | nil => simpa [begins] using ⟨s, rfl⟩
  | cons a as ih =>
    cases s with
    | nil => simp [begins]
    | cons b bs =>
      simp only [begins, Bool.and_eq_true, decide_eq_true_eq]
      constructor
      · rintro ⟨rfl, h⟩
        obtain ⟨t, rfl⟩ := (ih bs).mp h
        exact ⟨t, rfl⟩
      · rintro ⟨t, h⟩
        injection h with h1 h2
        exact ⟨h1.symm, (ih bs).mpr ⟨t, h2⟩⟩

theorem containsSub_iff (sep s : Str) : containsSub sep s = true ↔ Occurs sep s := by
  induction s with
  | nil =>
    simp only [containsSub, List.isEmpty_iff, Occurs]
    constructor
    · rintro rfl; exact ⟨[], [], rfl⟩
    · rintro ⟨a, b, h⟩
      rcases List.append_eq_nil.mp h.symm with ⟨h1, h2⟩
      exact (List.append_eq_nil.mp h1).2
  | cons c t ih =>
    simp only [containsSub, Bool.or_eq_true, ih, begins_iff]
    constructor
    · rintro (⟨u, h⟩ | ⟨a, b, h⟩)
      · exact ⟨[], u, by simpa using h⟩
      · exact ⟨c :: a, b, by simp [h]⟩
    · rintro ⟨a, b, h⟩
      cases a with
      | nil => exact Or.inl ⟨b, by simpa using h⟩
      | cons x atl =>
        injection h with h1 h2
        exact Or.inr ⟨atl, b, h2⟩

theorem occurs_single (ch : Char) (s : Str) : Occurs [ch] s ↔ ch ∈ s := by
  constructor
  · rintro ⟨a, b, rfl⟩; simp
  · intro h
    obtain ⟨a, b, rfl⟩ := List.append_of_mem h
    exact ⟨a, b, by simp⟩

theorem splitGoF_ne_nil (sep : Str) (fuel : Nat) (acc s : Str) :
    splitGoF sep fuel acc s ≠ [] := by
  induction fuel generalizing acc s with
  | zero => simp [splitGoF]
  | succ n ih =>
    cases s with
    | nil => simp [splitGoF]
    | cons c rest =>
      simp only [splitGoF]
      split
      · simp
      · exact ih _ _

theorem splitSub_ne_nil (s sep : Str) : splitSub s sep ≠ [] := by
  cases sep with
  | nil => simp [splitSub]
  | cons s0 sr => exact splitGoF_ne_nil _ _ _ _

theorem splitGoF_fuel_irrel (sep : Str) (f1 : Nat) :
    ∀ f2 acc s, s.length < f1 → s.length < f2 →
      splitGoF sep f1 acc s = splitGoF sep f2 acc s := by
  induction f1 with
  | zero => intro f2 acc s h1 _; exact absurd h1 (Nat.not_lt_zero _)
  | succ n ih =>
    intro f2 acc s h1 h2
    cases f2 with
    | zero => exact absurd h2 (Nat.not_lt_zero _)
    | succ m =>
      cases s with
      | nil => simp [splitGoF]
      | cons c rest =>
        simp only [splitGoF]
        by_cases hb : (begins sep (c :: rest) && !sep.isEmpty) = true
        · simp only [hb, if_true]
          have hd : (List.drop (sep.length - 1) rest).length ≤ rest.length := by
            rw [List.length_drop]; omega
          have hr : rest.length < n := by simpa using Nat.lt_of_succ_lt_succ h1
          have hr2 : rest.length < m := by simpa using Nat.lt_of_succ_lt_succ h2
          rw [ih m [] _ (by omega) (by omega)]
        · simp only [hb, if_false]
          have hr : rest.length < n := by simpa using Nat.lt_of_succ_lt_succ h1
          have hr2 : rest.length < m := by simpa using Nat.lt_of_succ_lt_succ h2
          exact ih m (c :: acc) rest hr hr2

theorem splitGoF_not_occurs (sep : Str) (hsep : sep ≠ []) (fuel : Nat) :
    ∀ acc s, s.length < fuel → ¬Occurs sep s →
      splitGoF sep fuel acc s = [acc.reverse ++ s] := by
  induction fuel with
  | zero => intro acc s h1 _; exact absurd h1 (Nat.not_lt_zero _)
  | succ n ih =>
    intro acc s h1 h2
    cases s with
    | nil => simp [splitGoF]
    | cons c rest =>
      have hb : begins sep (c :: rest) = false := by
        cases hq : begins sep (c :: rest) with
        | true =>
          obtain ⟨t, ht⟩ := (begins_iff sep (c :: rest)).mp hq
          exact absurd ⟨[], t, by simpa using ht⟩ h2
        | false => rfl
      simp only [splitGoF, hb, Bool.false_and, if_false]
      have hrest : ¬Occurs sep rest := by
        rintro ⟨a, b, hab⟩
        exact h2 ⟨c :: a, b, by simp [hab]⟩
      rw [ih (c :: acc) rest (by simpa using Nat.lt_of_succ_lt_succ h1) hrest]
      simp

theorem splitSub_not_occurs (sep : Str) (hsep : sep ≠ []) (s : Str)
    (h : ¬Occurs sep s) : splitSub s sep = [s] := by
  cases sep with
  | nil => exact absurd rfl hsep
  | cons s0 sr =>
    have := splitGoF_not_occurs (s0 :: sr) hsep (s.length + 1) [] s (by omega) h
    simpa [splitSub] using this

theorem splitGoF_cons_pos (sep : Str) (hsep : sep ≠ []) (n : Nat) (acc : Str) (c : Char)
    (rest : Str) (hb : begins sep (c :: rest) = true) :
    splitGoF sep (n + 1) acc (c :: rest) =
      acc.reverse :: splitGoF sep n [] (List.drop (sep.length - 1) rest) := by
  have he : sep.isEmpty = false := by
    cases sep with
    | nil => exact absurd rfl hsep
    | cons x xs => rfl
  simp [splitGoF, hb, he]

theorem splitGoF_cons_neg (sep : Str) (n : Nat) (acc : Str) (c : Char) (rest : Str)
    (hb : begins sep (c :: rest) = false) :
    splitGoF sep (n + 1) acc (c :: rest) = splitGoF sep n (c :: acc) rest := by
  simp [splitGoF, hb]

theorem splitGoF_boundary (sep : Str) (hsep : sep ≠ []) (tail : Str) :
    ∀ pre, (∀ a b, pre ++ sep ++ tail = a ++ sep ++ b → pre.length ≤ a.length) →
    ∀ fuel acc, (pre ++ sep ++ tail).length < fuel →
      splitGoF sep fuel acc (pre ++ sep ++ tail) =
        (acc.reverse ++ pre) :: splitSub tail sep := by
  intro pre
  induction pre with
  | nil =>
    intro _ fuel acc hf
    cases sep with
    | nil => exact absurd rfl hsep
    | cons s0 sr =>
      cases fuel with
      | zero => exact absurd hf (Nat.not_lt_zero _)
      | succ n =>
        rw [show ([] ++ (s0 :: sr)) ++ tail = s0 :: (sr ++ tail) by simp] at hf ⊢
        have hb : begins (s0 :: sr) (s0 :: (sr ++ tail)) = true :=
          (begins_iff _ _).mpr ⟨tail, by simp⟩
        rw [splitGoF_cons_pos (s0 :: sr) hsep n acc s0 (sr ++ tail) hb]
        have hdrop : List.drop ((s0 :: sr).length - 1) (sr ++ tail) = tail := by
          simp only [List.length_cons, Nat.add_sub_cancel]
          exact List.drop_left sr tail
        rw [hdrop]
        have htail : tail.length < n := by
          simp only [List.length_cons, List.length_append] at hf
          omega
        rw [splitGoF_fuel_irrel (s0 :: sr) n (tail.length + 1) [] tail htail (by omega)]
        simp [splitSub]
  | cons c preq ih =>
    intro H fuel acc hf
    cases fuel with
    | zero => exact absurd hf (Nat.not_lt_zero _)
    | succ n =>
      rw [show ((c :: preq) ++ sep) ++ tail = c :: ((preq ++ sep) ++ tail) by simp] at hf ⊢
      have hb : begins sep (c :: ((preq ++ sep) ++ tail)) = false := by
        cases hq : begins sep (c :: ((preq ++ sep) ++ tail)) with
        | true =>
          obtain ⟨t, ht⟩ := (begins_iff _ _).mp hq
          have := H [] t (by simpa using ht)
          simp at this
        | false => rfl
      have Hq : ∀ a b, preq ++ sep ++ tail = a ++ sep ++ b → preq.length ≤ a.length := by
        intro a b hab
        have := H (c :: a) b (by simp [hab])
        simpa using this
      rw [splitGoF_cons_neg sep n acc c _ hb]
      rw [ih Hq n (c :: acc) (by simpa using Nat.lt_of_succ_lt_succ hf)]
      simp

theorem splitSub_append (sep : Str) (hsep : sep ≠ []) (pre tail : Str)
    (H : ∀ a b, pre ++ sep ++ tail = a ++ sep ++ b → pre.length ≤ a.length) :
    splitSub (pre ++ sep ++ tail) sep = pre :: splitSub tail sep := by
  cases hs : sep with
  | nil => exact absurd hs hsep
  | cons s0 sr =>
    subst hs
    have := splitGoF_boundary (s0 :: sr) hsep tail pre H
      ((pre ++ (s0 :: sr) ++ tail).length + 1) [] (by omega)
    simpa [splitSub] using this

/-- A separator is border-free when no proper non-empty suffix of it is also
one of its prefixes; both separators used in the uptime parser are. -/
def BorderFree (sep : Str) : Prop :=
  ∀ r, r < sep.length → 0 < r → sep.drop r ≠ sep.take (sep.length - r)

theorem borderFree_first (sep : Str) (hsep : sep ≠ []) (hbf : BorderFree sep)
    (pre : Str) (hpre : ¬Occurs sep pre) :
    ∀ tail a b, pre ++ sep ++ tail = a ++ sep ++ b → pre.length ≤ a.length := by
  intro tail a b heq
  by_contra hltq
  have hlt : a.length < pre.length := by omega
  -- truncate the equation to the first `pre.length + sep.length` characters
  have htake := congrArg (List.take (pre.length + sep.length)) heq
  have hL : (pre ++ sep ++ tail).take (pre.length + sep.length) = pre ++ sep := by
    rw [show pre.length + sep.length = (pre ++ sep).length from (List.length_append pre sep).symm]
    exact List.take_left (pre ++ sep) tail
  have hR : (a ++ sep ++ b).take (pre.length + sep.length) =
      a ++ sep ++ b.take (pre.length - a.length) := by
    rw [@List.take_append_eq_append_take _ (a ++ sep) b (pre.length + sep.length)]
    rw [List.take_of_length_le (by simp only [List.length_append]; omega)]
    rw [show pre.length + sep.length - (a ++ sep).length = pre.length - a.length by
      simp only [List.length_append]; omega]
  rw [hL, hR] at htake
  -- htake : pre ++ sep = a ++ sep ++ b.take (pre.length - a.length)
  set b1 := b.take (pre.length - a.length) with hb1def
  by_cases hr : sep.length ≤ pre.length - a.length
  · -- the earlier occurrence lies entirely inside pre
    have htake2 := congrArg (List.take pre.length) htake
    have hL2 : (pre ++ sep).take pre.length = pre := List.take_left pre sep
    have hR2 : (a ++ sep ++ b1).take pre.length =
        a ++ sep ++ b1.take (pre.length - (a.length + sep.length)) := by
      rw [@List.take_append_eq_append_take _ (a ++ sep) b1 pre.length]
      rw [List.take_of_length_le (by simp only [List.length_append]; omega)]
      rw [show pre.length - (a ++ sep).length = pre.length - (a.length + sep.length) by
        simp only [List.length_append]]
    rw [hL2, hR2] at htake2
    exact hpre ⟨a, _, htake2⟩
  · -- the earlier occurrence straddles the boundary: sep would have a border
    have hrlt : pre.length - a.length < sep.length := by omega
    set r := pre.length - a.length with hrdef
    have hdrop := congrArg (List.drop a.length) htake
    have hL3 : (pre ++ sep).drop a.length = pre.drop a.length ++ sep := by
      rw [List.drop_append_eq_append_drop]
      congr 1
      rw [show a.length - pre.length = 0 by omega]
      rfl
    have hR3 : (a ++ sep ++ b1).drop a.length = sep ++ b1 := by
      rw [List.append_assoc]
      exact List.drop_left a (sep ++ b1)
    rw [hL3, hR3] at hdrop
    set pq := pre.drop a.length with hpqdef
    have hpqlen : pq.length = r := by
      rw [hpqdef, List.length_drop]
    -- hdrop : pq ++ sep = sep ++ b1
    have htk := congrArg (List.take r) hdrop
    have htkL : (pq ++ sep).take r = pq := by
      rw [← hpqlen]; exact List.take_left pq sep
    have htkR : (sep ++ b1).take r = sep.take r := by
      rw [List.take_append_eq_append_take, show r - sep.length = 0 by omega]
      simp
    rw [htkL, htkR] at htk
    have hdr := congrArg (List.drop r) hdrop
    have hdrL : (pq ++ sep).drop r = sep := by
      rw [← hpqlen]; exact List.drop_left pq sep
    have hdrR : (sep ++ b1).drop r = sep.drop r ++ b1 := by
      rw [List.drop_append_eq_append_drop, show r - sep.length = 0 by omega]
      rfl
    rw [hdrL, hdrR] at hdr
    -- hdr : sep = sep.drop r ++ b1
    have hfin := congrArg (List.take (sep.length - r)) hdr
    have hfinR : (sep.drop r ++ b1).take (sep.length - r) = sep.drop r := by
      rw [show sep.length - r = (sep.drop r).length by rw [List.length_drop]]
      exact List.take_left _ _
    rw [hfinR] at hfin
    exact hbf r hrlt (by omega) hfin.symm

theorem mem_first_decomp (ch : Char) (s : Str) (h : ch ∈ s) :
    ∃ a b, s = a ++ ch :: b ∧ ch ∉ a := by
  induction s with
  | nil => cases h
  | cons c t ih =>
    by_cases hc : c = ch
    · exact ⟨[], t, by simp [hc], by simp⟩
    · have ht : ch ∈ t := by
        rcases List.mem_cons.mp h with hcc | hcc
        · exact absurd hcc.symm hc
        · exact hcc
      obtain ⟨a, b, rfl, ha⟩ := ih ht
      refine ⟨c :: a, b, rfl, ?_⟩
      simp only [List.mem_cons, not_or]
      exact ⟨fun hcc => hc hcc.symm, ha⟩

theorem splitSub_single_cons (ch : Char) (a b : Str) (ha : ch ∉ a) :
    splitSub (a ++ ch :: b) [ch] = a :: splitSub b [ch] := by
  have hbf : BorderFree [ch] := by
    intro r h1 h2
    exfalso
    simp only [List.length_cons, List.length_nil] at h1
    omega
  have H := borderFree_first [ch] (by simp) hbf a
    (fun hocc => ha ((occurs_single ch a).mp hocc)) b
  have := splitSub_append [ch] (by simp) a b H
  simpa using this

theorem splitSub_two_le (ch : Char) (s : Str) (h : ch ∈ s) :
    2 ≤ (splitSub s [ch]).length := by
  obtain ⟨a, b, rfl, ha⟩ := mem_first_decomp ch s h
  rw [splitSub_single_cons ch a b ha]
  have h1 : 0 < (splitSub b [ch]).length :=
    List.length_pos.mpr (splitSub_ne_nil b [ch])
  simp only [List.length_cons]
  omega

theorem splitGoF_head (sep : Str) (fuel : Nat) :
    ∀ acc s, ∃ p t, s = p ++ t ∧
      (splitGoF sep fuel acc s).headD [] = acc.reverse ++ p := by
  induction fuel with
  | zero => intro acc s; exact ⟨s, [], by simp, by simp [splitGoF]⟩
  | succ n ih =>
    intro acc s
    cases s with
    | nil => exact ⟨[], [], by simp, by simp [splitGoF]⟩
    | cons c rest =>
      by_cases hb : (begins sep (c :: rest) && !sep.isEmpty) = true
      · exact ⟨[], c :: rest, by simp, by simp [splitGoF, hb]⟩
      · obtain ⟨p, t, hpt, hh⟩ := ih (c :: acc) rest
        refine ⟨c :: p, t, by simp [hpt], ?_⟩
        have hstep : splitGoF sep (n + 1) acc (c :: rest) = splitGoF sep n (c :: acc) rest := by
          simp only [splitGoF]
          rw [if_neg hb]
        rw [hstep, hh]
        simp

theorem splitSub_head (s sep : Str) :
    ∃ p t, s = p ++ t ∧ (splitSub s sep).headD [] = p := by
  cases sep with
  | nil => exact ⟨s, [], by simp, by simp [splitSub]⟩
  | cons s0 sr =>
    obtain ⟨p, t, hpt, hh⟩ := splitGoF_head (s0 :: sr) (s.length + 1) [] s
    exact ⟨p, t, hpt, by simpa [splitSub] using hh⟩

/-- The `for _, item := range items` loop of `getMap`. -/
def getMapGo (m : KVMap) : List Str → Option KVMap
  | [] => some m
  | item :: rest =>
    match tokenToPair item with
    | none => none
    | some p => getMapGo (mapInsert m p.1 p.2) rest

/-- Embeds Go `getMap` (eos.go): quote-aware field splitting followed by
insertion of the first two `=`-separated components of each field. -/
def getMap (line : Str) : Option KVMap := getMapGo [] (fields line)

/-! ## Typed records (the Go structs of eos.go) and their projectors -/

/-- Go struct `NodeInfo`. -/
structure NodeInfo where
  Hostport : Str
  Status : Str
  Nofs : Str
  SumStatStatfsFree : Str
  SumStatStatfsUsed : Str
  SumStatStatfsTotal : Str
  SumStatStatFilesFree : Str
  SumStatStatFilesUsed : Str
  SumStatStatFilesTotal : Str
  SumStatRopen : Str
  SumStatWopen : Str
  CfgStatSysThreads : Str
  SumStatNetInratemib : Str
  SumStatNetOutratemib : Str
deriving DecidableEq, Repr

/-- The record construction inside Go `parseNodeInfo`, as a function of the
key-value map: each field reads one fixed key, a missing key yields "". -/
def mkNodeInfo (kv : KVMap) : NodeInfo :=
  let g := fun (k : String) => mapGet kv k.data
  { Hostport := g "hostport"
    Status := g "status"
    Nofs := g "nofs"
    SumStatStatfsFree := g "sum.stat.statfs.freebytes"
    SumStatStatfsUsed := g "sum.stat.statfs.usedbytes"
    SumStatStatfsTotal := g "sum.stat.statfs.capacity"
    SumStatStatFilesFree := g "sum.stat.statfs.ffree"
    SumStatStatFilesUsed := g "sum.stat.usedfiles"
    SumStatStatFilesTotal := g "sum.stat.statfs.files"
    SumStatRopen := g "sum.stat.ropen"
    SumStatWopen := g "sum.stat.wopen"
    CfgStatSysThreads := g "cfg.stat.sys.threads"
    SumStatNetInratemib := g "sum.stat.net.inratemib"
    SumStatNetOutratemib := g "sum.stat.net.outratemib" }

/-- Go struct `SpaceInfo`.  The Go field `Type` is rendered `SpaceType`
because `Type` is reserved in Lean. -/
structure SpaceInfo where
  SpaceType : Str
  Name : Str
  CfgGroupSize : Str
  CfgGroupMod : Str
  Nofs : Str
  AvgStatDiskLoad : Str
  SigStatDiskLoad : Str
  SumStatDiskReadratemb : Str
  SumStatDiskWriteratemb : Str
  SumStatNetEthratemib : Str
  SumStatNetInratemib : Str
  SumStatNetOutratemib : Str
  SumStatRopen : Str
  SumStatWopen : Str
  SumStatStatfsUsedbytes : Str
  SumStatStatfsFreebytes : Str
  SumStatStatfsCapacity : Str
  SumStatUsedfiles : Str
  SumStatStatfsFfiles : Str
  SumStatStatfsFiles : Str
  SumStatStatfsCapacityConfigstatusRw : Str
  SumNofsConfigstatusRw : Str
  CfgQuota : Str
  CfgNominalsize : Str
  CfgBalancer : Str
  CfgBalancerThreshold : Str
  SumStatBalancerRunning : Str
  SumStatDrainerRunning : Str
  SumStatDiskIopsConfigstatusRw : Str
  SumStatDiskBwConfigstatusRw : Str
deriving DecidableEq, Repr

/-- The record construction inside Go `parseSpaceInfo` (positional literal,
transcribed in source order). -/
def mkSpaceInfo (kv : KVMap) : SpaceInfo :=
  let g := fun (k : String) => mapGet kv k.data
  ⟨g "type", g "name", g "cfg.groupsize", g "cfg.groupmod", g "nofs",
   g "avg.stat.disk.load", g "sig.stat.disk.load", g "sum.stat.disk.readratemb",
   g "sum.stat.disk.writeratemb", g "sum.stat.net.ethratemib",
   g "sum.stat.net.inratemib", g "sum.stat.net.outratemib", g "sum.stat.ropen",
   g "sum.stat.wopen", g "sum.stat.statfs.usedbytes", g "sum.stat.statfs.freebytes",
   g "sum.stat.statfs.capacity", g "sum.stat.usedfiles", g "sum.stat.statfs.ffiles",
   g "sum.stat.statfs.files", g "sum.stat.statfs.capacity?configstatus@rw",
   g "sum.<n>?configstatus@rw", g "cfg.quota", g "cfg.nominalsize",
   g "cfg.balancer", g "cfg.balancer.threshold", g "sum.stat.balancer.running",
   g "sum.stat.drainer.running", g "sum.stat.disk.iops?configstatus@rw",
   g "sum.stat.disk.bw?configstatus@rw"⟩

/-- Go struct `GroupInfo`. -/
structure GroupInfo where
  Name : Str
  CfgStatus : Str
  Nofs : Str
  AvgStatDiskLoad : Str
  SigStatDiskLoad : Str
  SumStatDiskReadratemb : Str
  SumStatDiskWriteratemb : Str
  SumStatNetEthratemib : Str
  SumStatNetInratemib : Str
  SumStatNetOutratemib : Str
  SumStatRopen : Str
  SumStatWopen : Str
  SumStatStatfsUsedbytes : Str
  SumStatStatfsFreebytes : Str
  SumStatStatfsCapacity : Str
  SumStatUsedfiles : Str
  SumStatStatfsFfree : Str
  SumStatStatfsFiles : Str
  DevStatStatfsFilled : Str
  AvgStatStatfsFilled : Str
  SigStatStatfsFilled : Str
  CfgStatBalancing : Str
  SumStatBalancerRunning : Str
  SumStatDrainerRunning : Str
deriving DecidableEq, Repr

/-- The record construction inside Go `parseGroupInfo` (positional literal,
transcribed in source order). -/
def mkGroupInfo (kv : KVMap) : GroupInfo :=
  let g := fun (k : String) => mapGet kv k.data
  ⟨g "name", g "cfg.status", g "nofs", g "avg.stat.disk.load",
   g "sig.stat.disk.load", g "sum.stat.disk.readratemb",
   g "sum.stat.disk.writeratemb", g "sum.stat.net.ethratemib",
   g "sum.stat.net.inratemib", g "sum.stat.net.outratemib", g "sum.stat.ropen",
   g "sum.stat.wopen", g "sum.stat.statfs.usedbytes", g "sum.stat.statfs.freebytes",
   g "sum.stat.statfs.capacity", g "sum.stat.usedfiles", g "sum.stat.statfs.ffree",
   g "sum.stat.statfs.files", g "dev.stat.statfs.filled", g "avg.stat.statfs.filled",
   g "sig.stat.statfs.filled", g "cfg.stat.balancing", g "sum.stat.balancer.running",
   g "sum.stat.drainer.running"⟩

/-- Go struct `FSInfo`. -/
structure FSInfo where
  Host : Str
  Port : Str
  Id : Str
  Uuid : Str
  Path : Str
  Schedgroup : Str
  StatBoot : Str
  Configstatus : Str
  Headroom : Str
  StatErrc : Str
  StatErrmsg : Str
  StatDiskLoad : Str
  StatDiskReadratemb : Str
  StatDiskWriteratemb : Str
  StatNetEthratemib : Str
  StatNetInratemib : Str
  StatNetOutratemib : Str
  StatRopen : Str
  StatWopen : Str
  StatStatfsFreebytes : Str
  StatStatfsUsedbytes : Str
  StatStatfsCapacity : Str
  StatUsedfiles : Str
  StatStatfsFfree : Str
  StatStatfsFused : Str
  StatStatfsFiles : Str
  Drainstatus : Str
  StatDrainprogress : Str
  StatDrainfiles : Str
  StatDrainbytesleft : Str
  StatDrainretry : Str
  StatDrainFailed : Str
  Graceperiod : Str
  StatTimeleft : Str
  StatActive : Str
  StatBalancerRunning : Str
  StatDrainerRunning : Str
  StatDiskIops : Str
  StatDiskBw : Str
  StatGeotag : Str
  StatHealth : Str
  StatHealthRedundancyFactor : Str
  StatHealthDrivesFailed : Str
  StatHealthDrivesTotal : Str
  StatHealthIndicator : Str
deriving DecidableEq, Repr

/-- The record construction inside Go `parseFSInfo` (positional literal,
transcribed in source order). -/
def mkFSInfo (kv : KVMap) : FSInfo :=
  let g := fun (k : String) => mapGet kv k.data
  ⟨g "host", g "port", g "id", g "uuid", g "path", g "schedgroup", g "stat.boot",
   g "configstatus", g "headroom", g "stat.errc", g "stat.errmsg",
   g "stat.disk.load", g "stat.disk.readratemb", g "stat.disk.writeratemb",
   g "stat.net.ethratemib", g "stat.net.inratemib", g "stat.net.outratemib",
   g "stat.ropen", g "stat.wopen", g "stat.statfs.freebytes",
   g "stat.statfs.usedbytes", g "stat.statfs.capacity", g "stat.usedfiles",
   g "stat.statfs.ffree", g "stat.statfs.fused", g "stat.statfs.files",
   g "drainstatus", g "stat.drainprogress", g "stat.drainfiles",
   g "stat.drainbytesleft", g "stat.drainretry", g "stat.drain.failed",
   g "graceperiod", g "stat.timeleft", g "stat.active",
   g "stat.balancer.running", g "stat.drainer.running", g "stat.disk.iops",
   g "stat.disk.bw", g "stat.geotag", g "stat.health",
   g "stat.health.redundancy_factor", g "stat.health.drives_failed",
   g "stat.health.drives_total", g "stat.health.indicator"⟩

/-- Go `parseNodeInfo`: tokenize the line, project the map (`none` models the
index-out-of-range panic inside `getMap`; the Go error result is always nil). -/
def parseNodeInfo (line : Str) : Option NodeInfo := (getMap line).map mkNodeInfo

/-- Go `parseSpaceInfo`. -/
def parseSpaceInfo (line : Str) : Option SpaceInfo := (getMap line).map mkSpaceInfo

/-- Go `parseGroupInfo`. -/
def parseGroupInfo (line : Str) : Option GroupInfo := (getMap line).map mkGroupInfo

/-- Go `parseFSInfo`. -/
def parseFSInfo (line : Str) : Option FSInfo := (getMap line).map mkFSInfo

/-- The shared loop shape of Go `parseNodesInfo`, `parseSpacesInfo`,
`parseGroupsInfo` and `parseFSsInfo`: iterate over the split lines, `continue`
on an empty line, abort on a failing line, append in order otherwise. -/
def parseLinesWith {α : Type} (f : Str → Option α) : List Str → Option (List α)
  | [] => some []
  | l :: ls =>
    if l = [] then parseLinesWith f ls
    else
      match f l with
      | none => none
      | some r => (parseLinesWith f ls).map (fun rs => r :: rs)

/-- Go `parseNodesInfo`: split on newline, skip empty lines, one record per
remaining line. -/
def parseNodesInfo (raw : Str) : Option (List NodeInfo) :=
  parseLinesWith parseNodeInfo (splitSub raw ['\n'])

/-- Go `parseSpacesInfo`. -/
def parseSpacesInfo (raw : Str) : Option (List SpaceInfo) :=
  parseLinesWith parseSpaceInfo (splitSub raw ['\n'])

/-- Go `parseGroupsInfo`. -/
def parseGroupsInfo (raw : Str) : Option (List GroupInfo) :=
  parseLinesWith parseGroupInfo (splitSub raw ['\n'])

/-- Go `parseFSsInfo`. -/
def parseFSsInfo (raw : Str) : Option (List FSInfo) :=
  parseLinesWith parseFSInfo (splitSub raw ['\n'])

/-- Specification-side sequential traversal: apply `f` to every element in
order, failing if any application fails. -/
def seqMapOpt {α β : Type} (f : α → Option β) : List α → Option (List β)
  | [] => some []
  | x :: xs =>
    match f x with
    | none => none
    | some y => (seqMapOpt f xs).map (fun ys => y :: ys)

theorem parseLinesWith_eq_filter {α : Type} (f : Str → Option α) (ls : List Str) :
    parseLinesWith f ls = seqMapOpt f (ls.filter (fun l => !l.isEmpty)) := by
  induction ls with
  | nil => rfl
  | cons l ls ih =>
    by_cases hl : l = []
    · subst hl
      simp [parseLinesWith, ih]
    · have hne : l.isEmpty = false := by
        cases l with
        | nil => exact absurd rfl hl
        | cons x xs => rfl
      simp only [parseLinesWith, if_neg hl, List.filter_cons, hne, Bool.not_false,
        if_true, seqMapOpt, ih]

theorem seqMapOpt_forall2 {α β : Type} (f : α → Option β) :
    ∀ xs ys, seqMapOpt f xs = some ys →
      List.Forall₂ (fun x y => f x = some y) xs ys := by
  intro xs
  induction xs with
  | nil =>
    intro ys h
    cases h
    exact List.Forall₂.nil
  | cons x xs ih =>
    intro ys h
    unfold seqMapOpt at h
    cases hx : f x with
    | none =>
      rw [hx] at h
      cases h
    | some y =>
      rw [hx] at h
      cases hrec : seqMapOpt f xs with
      | none =>
        rw [hrec] at h
        cases h
      | some ysq =>
        rw [hrec] at h
        have h2 : Option.map (fun l => y :: l) (some ysq) = some ys := h
        rw [Option.map_some'] at h2
        cases h2
        exact List.Forall₂.cons hx (ih ysq hrec)

/-! ## The process runner `execute` -/

/-- The error classification carried out by Go `execute` (eos.go).
`notFound` models the error value `fmt.Errorf("error: FIXME")` that replaces
the exit error when the exit status is 2 — the marker for the commented-out
`api.NewError(api.StorageNotFoundErrorCode)` — and `exitError code` models the
`*exec.ExitError` passed through unchanged for every other non-zero status. -/
inductive ExecError where
  | notFound : ExecError
  | exitError : Nat → ExecError
deriving DecidableEq, Repr

/-- The observable outcome of `cmd.Run()` for a process that ran to
completion: its exit status and the text captured in the stdout and stderr
buffers. -/
structure CmdOutcome where
  exitCode : Nat
  stdout : Str
  stderr : Str

/-- The exit-status switch inside Go `execute`: status 0 means no error,
status 2 is remapped to the distinct `notFound` error, any other status keeps
the exit error. -/
def classifyExit (code : Nat) : Option ExecError :=
  if code = 0 then none
  else if code = 2 then some ExecError.notFound
  else some (ExecError.exitError code)

/-- Embeds Go `execute`: returns the captured stdout, the captured stderr and
the classified error, in that order, on every path. -/
def execute (o : CmdOutcome) : Str × Str × Option ExecError :=
  (o.stdout, o.stderr, classifyExit o.exitCode)

/-! ## The version listing: `getHostname`, uptime parsing, `parseVSsInfo` -/

/-- Embeds Go `getHostname`: `split := strings.Split(hostport, ":")` followed
by the indexed accesses `split[0]` and `split[1]`; a hostport without a colon
makes `split[1]` an out-of-range access, modelled as `none`. -/
def getHostname (hostport : Str) : Option (Str × Str) :=
  match splitSub hostport [':'] with
  | a :: b :: _ => some (a, b)
  | _ => none

/-- The separator `"%20days,"` of the uptime parser in `parseVSsInfo`. -/
def daysSep : Str := "%20days,".data

/-- The marker `"up%20"` of the uptime parser in `parseVSsInfo`. -/
def upSep : Str := "up%20".data

/-- The uptime derivation inside Go `parseVSsInfo`:
`s := strings.Split(uptime, "%20days,")[0]`, `upt := strings.Split(s, "up%20")`,
then `"0"` if `len(upt) < 2` and `upt[1]` otherwise.  `Split` never returns an
empty slice (`splitSub_ne_nil`), so the `[0]` access is written `headD []`. -/
def parseUptime (u : Str) : Str :=
  let s := (splitSub u daysSep).headD []
  match splitSub s upSep with
  | _ :: second :: _ => second
  | _ => "0".data

/-- The `eos` sub-document of the decoded JSON node (Go struct `Sys`, field
`Eos`). -/
structure SysEos where
  start : Str
  version : Str
deriving DecidableEq, Repr

/-- The `xrootd` sub-document (Go struct `Sys`, field `Xrootd`). -/
structure SysXrootd where
  version : Str
deriving DecidableEq, Repr

/-- Go struct `Sys` (decoded JSON). -/
structure Sys where
  eos : SysEos
  kernel : Str
  rss : Int
  sockets : Int
  threads : Int
  uptime : Str
  vsize : Int
  xrootd : SysXrootd
deriving DecidableEq, Repr

/-- Go struct `Stat` (decoded JSON). -/
structure Stat where
  geotag : Str
  sys : Sys
deriving DecidableEq, Repr

/-- Go struct `NodeLSCfg`.  The Go field is a pointer; the claims under
verification only concern nodes whose `cfg` document is present, so it is
modelled as a value. -/
structure NodeLSCfg where
  stat : Stat
deriving DecidableEq, Repr

/-- Go struct `NodeLS`. -/
structure NodeLS where
  hostPort : Str
  cfg : NodeLSCfg
deriving DecidableEq, Repr

/-- Go struct `NodeLSResponse`. -/
structure NodeLSResponse where
  errorMsg : Str
  result : List NodeLS
deriving DecidableEq, Repr

/-- Go struct `VSInfo`. -/
structure VSInfo where
  EOSmgm : Str
  Hostname : Str
  Port : Str
  Geotag : Str
  Vsize : Str
  Rss : Str
  Threads : Str
  Sockets : Str
  EOSfst : Str
  Xrootdfst : Str
  KernelV : Str
  Start : Str
  Uptime : Str
deriving DecidableEq, Repr

/-- Go `strconv.Itoa`. -/
def intToStr (i : Int) : Str := (toString i).data

/-- The per-node body of the loop in Go `parseVSsInfo`: split host and port
(`none` models the out-of-range panic in `getHostname`), derive the uptime,
and build the `VSInfo` literal. -/
def parseVSNode (mgmVersion : Str) (node : NodeLS) : Option VSInfo :=
  match getHostname node.hostPort with
  | none => none
  | some hp =>
    some
      { EOSmgm := mgmVersion
        Hostname := hp.1
        Port := hp.2
        Geotag := node.cfg.stat.geotag
        Vsize := intToStr node.cfg.stat.sys.vsize
        Rss := intToStr node.cfg.stat.sys.rss
        Threads := intToStr node.cfg.stat.sys.threads
        Sockets := intToStr node.cfg.stat.sys.sockets
        EOSfst := node.cfg.stat.sys.eos.version
        Xrootdfst := node.cfg.stat.sys.xrootd.version
        KernelV := node.cfg.stat.sys.kernel
        Start := node.cfg.stat.sys.eos.start
        Uptime := parseUptime node.cfg.stat.sys.uptime }

/-- Go `parseVSsInfo`: a non-empty `errormsg` fails the whole batch with that
message, otherwise each node of `result` is projected in order.  The outer
`none` models a panic inside a node projection. -/
def parseVSsInfo (mgmVersion : Str) (resp : NodeLSResponse) :
    Option (Except Str (List VSInfo)) :=
  if ¬(resp.errorMsg = []) then some (Except.error resp.errorMsg)
  else (seqMapOpt (parseVSNode mgmVersion) resp.result).map Except.ok

/-! ## The namespace statistics parser `parseNSsInfo` -/

/-- Go struct `NSInfo`. -/
structure NSInfo where
  Boot_file_time : Str
  Boot_status : Str
  Boot_time : Str
  Cache_container_maxsize : Str
  Cache_container_occupancy : Str
  Cache_files_maxsize : Str
  Cache_files_occupancy : Str
  Fds_all : Str
  Fusex_activeclients : Str
  Fusex_caps : Str
  Fusex_clients : Str
  Fusex_lockedclients : Str
  Latency_dirs : Str
  Latency_files : Str
  Latency_pending_updates : Str
  Latencypeak_eosviewmutex_1min : Str
  Latencypeak_eosviewmutex_2min : Str
  Latencypeak_eosviewmutex_5min : Str
  Latencypeak_eosviewmutex_last : Str
  Memory_growth : Str
  Memory_resident : Str
  Memory_share : Str
  Memory_virtual : Str
  Stat_threads : Str
  Total_directories : Str
  Total_directories_changelog_avg_entry_size : Str
  Total_directories_changelog_size : Str
  Total_files : Str
  Total_files_changelog_avg_entry_size : Str
  Total_files_changelog_size : Str
  Uptime : Str
deriving DecidableEq, Repr

/-- Go struct `NSActivityInfo`. -/
structure NSActivityInfo where
  User : Str
  Gid : Str
  Operation : Str
  Sum : Str
  Last_5s : Str
  Last_60s : Str
  Last_300s : Str
  Last_3600s : Str
  Exec : Str
  Sigma : Str
  Exec99 : Str
  Max : Str
deriving DecidableEq, Repr

/-- The `NSActivityInfo` literal built inside Go `parseNSsInfo` (positional,
in source order). -/
def mkNSActivityInfo (kv : KVMap) : NSActivityInfo :=
  let g := fun (k : String) => mapGet kv k.data
  ⟨g "uid", g "gid", g "cmd", g "total", g "5s", g "60s", g "300s", g "3600s",
   g "exec", g "execsig", g "exec99", g "execmax"⟩

/-- The `NSInfo` literal built inside Go `parseNSsInfo` (positional, in source
order). -/
def mkNSInfo (kv : KVMap) : NSInfo :=
  let g := fun (k : String) => mapGet kv k.data
  ⟨g "ns.boot.file.time", g "ns.boot.status", g "ns.boot.time",
   g "ns.cache.containers.maxsize", g "ns.cache.containers.occupancy",
   g "ns.cache.files.maxsize", g "ns.cache.files.occupancy", g "ns.fds.all",
   g "ns.fusex.activeclients", g "ns.fusex.caps", g "ns.fusex.clients",
   g "ns.fusex.lockedclients", g "ns.latency.dirs", g "ns.latency.files",
   g "ns.latency.pending.updates", g "ns.latencypeak.eosviewmutex.1min",
   g "ns.latencypeak.eosviewmutex.2min", g "ns.latencypeak.eosviewmutex.5min",
   g "ns.latencypeak.eosviewmutex.last", g "ns.memory.growth",
   g "ns.memory.resident", g "ns.memory.share", g "ns.memory.virtual",
   g "ns.stat.threads", g "ns.total.directories",
   g "ns.total.directories.changelog.avg_entry_size",
   g "ns.total.directories.changelog.size", g "ns.total.files",
   g "ns.total.files.changelog.avg_entry_size",
   g "ns.total.files.changelog.size", g "ns.uptime"⟩

/-- The loop state of Go `parseNSsInfo`: the variables `nsinfo` and
`nsactinfo` are declared once, before the loop, and are never reset inside it;
`nsinfos` and `nsactinfos` are the accumulated slices. -/
structure NSParseState where
  nsinfo : Option NSInfo
  nsactinfo : Option NSActivityInfo
  nsinfos : List NSInfo
  nsactinfos : List NSActivityInfo
deriving DecidableEq, Repr

/-- The row classification inside the loop of Go `parseNSsInfo`: only rows
with `uid == "all" && gid == "all"` are considered; a row with a `cmd` key
sets `nsactinfo` unless all four rates are `"0.00"`; a row without `cmd` and
with at most three keys sets `nsinfo` once per key other than `uid`/`gid`
(the assignment does not depend on which key, so the Go `for k := range kv`
is rendered as an existence test; the discarded `fmt.Sprintf` call has no
effect and is omitted). -/
def nsClassify (st : NSParseState) (kv : KVMap) : NSParseState :=
  if mapGet kv "uid".data = "all".data ∧ mapGet kv "gid".data = "all".data then
    if mapHas kv "cmd".data then
      if mapGet kv "5s".data = "0.00".data ∧ mapGet kv "60s".data = "0.00".data ∧
          mapGet kv "300s".data = "0.00".data ∧ mapGet kv "3600s".data = "0.00".data then
        st
      else { st with nsactinfo := some (mkNSActivityInfo kv) }
    else
      if kv.length ≤ 3 then
        if kv.any (fun p => !(p.1 == "uid".data) && !(p.1 == "gid".data)) then
          { st with nsinfo := some (mkNSInfo kv) }
        else st
      else st
  else st

/-- The unconditional appends at the bottom of the loop body of Go
`parseNSsInfo`: whenever the (possibly stale) `nsinfo` or `nsactinfo` is
non-nil it is appended again. -/
def nsAppend (st : NSParseState) : NSParseState :=
  let st1 :=
    match st.nsinfo with
    | some i => { st with nsinfos := st.nsinfos ++ [i] }
    | none => st
  match st1.nsactinfo with
  | some a => { st1 with nsactinfos := st1.nsactinfos ++ [a] }
  | none => st1

/-- One iteration of the loop of Go `parseNSsInfo`: `continue` on an empty
line, otherwise tokenize, classify, then run the trailing appends. -/
def nsStep (st : NSParseState) (line : Str) : Option NSParseState :=
  if line = [] then some st
  else
    match getMap line with
    | none => none
    | some kv => some (nsAppend (nsClassify st kv))

/-- Embeds Go `parseNSsInfo`: fold the per-line step over the newline-split
raw output and return the two accumulated slices. -/
def parseNSsInfo (raw : Str) : Option (List NSInfo × List NSActivityInfo) :=
  ((splitSub raw ['
']).foldlM nsStep ⟨none, none, [], []⟩).map
    (fun st => (st.nsinfos, st.nsactinfos))

/-! ## Auxiliary lemmas for the claim theorems -/

theorem not_occurs_of_containsSub (sep s : Str) (h : containsSub sep s = false) :
    ¬Occurs sep s := fun hocc => by
  have := (containsSub_iff sep s).mpr hocc
  rw [h] at this
  cases this

theorem mapGet_absent (m : KVMap) (k : Str) (h : ∀ p ∈ m, ¬(p.1 = k)) :
    mapGet m k = [] := by
  unfold mapGet
  have hf : m.find? (fun p => p.1 == k) = none := by
    rw [List.find?_eq_none]
    intro p hp
    simpa using h p hp
  rw [hf]

theorem getHostname_isSome_of_mem (s : Str) (hs : ':' ∈ s) :
    (getHostname s).isSome := by
  obtain ⟨x, y, rfl, hx⟩ := mem_first_decomp ':' s hs
  unfold getHostname
  rw [splitSub_single_cons ':' x y hx]
  cases hq : splitSub y [':'] with
  | nil => exact absurd hq (splitSub_ne_nil y [':'])
  | cons z tl => rfl

theorem parseVSNode_isSome (mgm : Str) (node : NodeLS)
    (h : (getHostname node.hostPort).isSome) : (parseVSNode mgm node).isSome := by
  unfold parseVSNode
  cases hq : getHostname node.hostPort with
  | none => rw [hq] at h; cases h
  | some hp => rfl

theorem borderFree_daysSep : BorderFree daysSep := by
  unfold BorderFree
  decide

theorem borderFree_upSep : BorderFree upSep := by
  unfold BorderFree
  decide

/-- The all-empty records, i.e. the intended projections of the empty map. -/
def emptyNodeInfo : NodeInfo :=
  ⟨[], [], [], [], [], [], [], [], [], [], [], [], [], []⟩

def emptySpaceInfo : SpaceInfo :=
  ⟨[], [], [], [], [], [], [], [], [], [], [], [], [], [], [], [], [], [], [], [],
   [], [], [], [], [], [], [], [], [], []⟩

def emptyGroupInfo : GroupInfo :=
  ⟨[], [], [], [], [], [], [], [], [], [], [], [], [], [], [], [], [], [], [], [],
   [], [], [], []⟩

def emptyFSInfo : FSInfo :=
  ⟨[], [], [], [], [], [], [], [], [], [], [], [], [], [], [], [], [], [], [], [],
   [], [], [], [], [], [], [], [], [], [], [], [], [], [], [], [], [], [], [], [],
   [], [], [], [], []⟩

def emptyNSInfo : NSInfo :=
  ⟨[], [], [], [], [], [], [], [], [], [], [], [], [], [], [], [], [], [], [], [],
   [], [], [], [], [], [], [], [], [], [], []⟩

/-! ## Claim theorems -/

/-- C1, counterexample: the claim says the quote characters are excluded from
the token, but `strings.FieldsFunc` only treats them as non-delimiting and
keeps them, so tokenizing the claim's own example line maps `status` to
`"active now"` surrounded by literal quote characters, not to `active now`. -/
theorem c1_counterexample :
    (getMap "hostport=abc.cern.ch:1095 status=\"active now\" nofs=12".data).map
        (fun m => mapGet m "status".data) = some "\"active now\"".data ∧
    ¬("\"active now\"".data = "active now".data) := by
  constructor
  · decide
  · decide

/-- C1, amended claim: the tokenizer splits on whitespace and whitespace
inside a quoted span is non-delimiting, but the quote characters are retained
as token content; tokenizing the example line yields exactly the mapping
`hostport = abc.cern.ch:1095`, `status = "active now"` (quotes included) and
`nofs = 12`, in that insertion order. -/
theorem c1_amended :
    getMap "hostport=abc.cern.ch:1095 status=\"active now\" nofs=12".data =
      some [("hostport".data, "abc.cern.ch:1095".data),
            ("status".data, "\"active now\"".data),
            ("nofs".data, "12".data)] := by
  decide

/-- C3, counterexample: the claim says a value containing `=` is mapped in
full, but `m[x[0]] = x[1]` keeps only the segment between the first and the
second `=`; tokenizing `a=b=c` maps `a` to `b`, not to `b=c`. -/
theorem c3_counterexample :
    getMap "a=b=c".data = some [("a".data, "b".data)] ∧
    ¬("b".data = "b=c".data) := by
  constructor
  · decide
  · decide

/-- C3, amended claim: each token is split on every `=` and the mapping keeps
only the second component, so a token `k=v=w` (with `=`-free `k` and `v`) maps
`k` to `v`, the portion of the value before its next `=`. -/
theorem c3_amended (k v w : Str) (hk : '=' ∉ k) (hv : '=' ∉ v) :
    tokenToPair (k ++ '=' :: (v ++ '=' :: w)) = some (k, v) := by
  unfold tokenToPair
  rw [splitSub_single_cons '=' k (v ++ '=' :: w) hk, splitSub_single_cons '=' v w hv]

theorem c3_amended_witness :
    tokenToPair ("a".data ++ '=' :: ("b".data ++ '=' :: "c".data)) =
      some ("a".data, "b".data) :=
  c3_amended "a".data "b".data "c".data (by decide) (by decide)

/-- C9: on a line whose every whitespace/quote-delimited token contains at
least one `=`, both indexed accesses `x[0]` and `x[1]` inside `getMap` are in
bounds, so the tokenizer completes without the out-of-range branch (`getMap`
returns `some`). -/
theorem c9_no_oob (line : Str) (h : ∀ item ∈ fields line, '=' ∈ item) :
    (getMap line).isSome := by
  unfold getMap
  suffices H : ∀ items, (∀ item ∈ items, '=' ∈ item) →
      ∀ m, (getMapGo m items).isSome by
    exact H (fields line) h []
  intro items
  induction items with
  | nil => intro _ m; rfl
  | cons item rest ih =>
    intro hall m
    have hitem : '=' ∈ item := hall item (by simp)
    have h2 : 2 ≤ (splitSub item ['=']).length := splitSub_two_le '=' item hitem
    obtain ⟨a, tl, hsp⟩ : ∃ a tl, splitSub item ['='] = a :: tl := by
      cases hq : splitSub item ['='] with
      | nil => rw [hq] at h2; simp at h2
      | cons a tl => exact ⟨a, tl, rfl⟩
    obtain ⟨b, tl2, hsp2⟩ : ∃ b tl2, tl = b :: tl2 := by
      cases hq : tl with
      | nil =>
        subst hq
        rw [hsp] at h2
        simp at h2
      | cons b tl2 => exact ⟨b, tl2, rfl⟩
    subst hsp2
    have htp : tokenToPair item = some (a, b) := by
      unfold tokenToPair
      rw [hsp]
    simp only [getMapGo, htp]
    exact ih (fun i hi => hall i (List.mem_cons_of_mem _ hi)) (mapInsert m a b)

theorem c9_witness : (getMap "a=1 b=2".data).isSome :=
  c9_no_oob "a=1 b=2".data (by decide)

/-- C4: the four monitoring-format record projectors are total functions of
the mapping: the empty mapping projects to the all-empty record, the claim's
example mapping projects to the expected `GroupInfo`, and for each projector a
key that is absent from the mapping yields the empty string in the
corresponding field. -/
theorem c4_projectors_total :
    (mkNodeInfo [] = emptyNodeInfo ∧ mkSpaceInfo [] = emptySpaceInfo ∧
     mkGroupInfo [] = emptyGroupInfo ∧ mkFSInfo [] = emptyFSInfo) ∧
    mkGroupInfo [("name".data, "default".data), ("cfg.status".data, "on".data),
        ("nofs".data, "4".data)] =
      { emptyGroupInfo with
          Name := "default".data, CfgStatus := "on".data, Nofs := "4".data } ∧
    (∀ kv : KVMap, (∀ p ∈ kv, ¬(p.1 = "hostport".data)) →
      (mkNodeInfo kv).Hostport = []) ∧
    (∀ kv : KVMap, (∀ p ∈ kv, ¬(p.1 = "name".data)) → (mkSpaceInfo kv).Name = []) ∧
    (∀ kv : KVMap, (∀ p ∈ kv, ¬(p.1 = "cfg.status".data)) →
      (mkGroupInfo kv).CfgStatus = []) ∧
    (∀ kv : KVMap, (∀ p ∈ kv, ¬(p.1 = "uuid".data)) → (mkFSInfo kv).Uuid = []) := by
  refine ⟨⟨by decide, by decide, by decide, by decide⟩, by decide, ?_, ?_, ?_, ?_⟩
  · intro kv h
    exact mapGet_absent kv "hostport".data h
  · intro kv h
    exact mapGet_absent kv "name".data h
  · intro kv h
    exact mapGet_absent kv "cfg.status".data h
  · intro kv h
    exact mapGet_absent kv "uuid".data h

theorem c4_witness :
    (mkNodeInfo [("x".data, "y".data)]).Hostport = [] ∧
    (mkGroupInfo [("x".data, "y".data)]).CfgStatus = [] :=
  ⟨c4_projectors_total.2.2.1 [("x".data, "y".data)] (by decide),
   c4_projectors_total.2.2.2.2.1 [("x".data, "y".data)] (by decide)⟩

/-- C8: each of the four listing parsers splits the raw stdout on newlines,
discards exactly the empty lines, and, whenever it returns a sequence, that
sequence has exactly one record per remaining line with the i-th record being
the projection of the i-th non-empty line — no reordering, no deduplication
(stated as equality with the in-order traversal of the filtered line list,
plus the pointwise Forall2 correspondence). -/
theorem c8_listing_order (raw : Str) :
    parseNodesInfo raw =
      seqMapOpt parseNodeInfo ((splitSub raw ['\n']).filter (fun l => !l.isEmpty)) ∧
    parseSpacesInfo raw =
      seqMapOpt parseSpaceInfo ((splitSub raw ['\n']).filter (fun l => !l.isEmpty)) ∧
    parseGroupsInfo raw =
      seqMapOpt parseGroupInfo ((splitSub raw ['\n']).filter (fun l => !l.isEmpty)) ∧
    parseFSsInfo raw =
      seqMapOpt parseFSInfo ((splitSub raw ['\n']).filter (fun l => !l.isEmpty)) ∧
    (∀ recs, parseNodesInfo raw = some recs →
      List.Forall₂ (fun l r => parseNodeInfo l = some r)
        ((splitSub raw ['\n']).filter (fun l => !l.isEmpty)) recs) ∧
    (∀ recs, parseSpacesInfo raw = some recs →
      List.Forall₂ (fun l r => parseSpaceInfo l = some r)
        ((splitSub raw ['\n']).filter (fun l => !l.isEmpty)) recs) ∧
    (∀ recs, parseGroupsInfo raw = some recs →
      List.Forall₂ (fun l r => parseGroupInfo l = some r)
        ((splitSub raw ['\n']).filter (fun l => !l.isEmpty)) recs) ∧
    (∀ recs, parseFSsInfo raw = some recs →
      List.Forall₂ (fun l r => parseFSInfo l = some r)
        ((splitSub raw ['\n']).filter (fun l => !l.isEmpty)) recs) := by
  refine ⟨parseLinesWith_eq_filter _ _, parseLinesWith_eq_filter _ _,
    parseLinesWith_eq_filter _ _, parseLinesWith_eq_filter _ _, ?_, ?_, ?_, ?_⟩ <;>
  · intro recs h
    refine seqMapOpt_forall2 _ _ recs ?_
    rw [← parseLinesWith_eq_filter]
    exact h

theorem c8_witness :
    List.Forall₂ (fun l r => parseNodeInfo l = some r)
      ((splitSub "hostport=h:1 status=on\n\nhostport=h:2 status=off".data ['\n']).filter
        (fun l => !l.isEmpty))
      [mkNodeInfo [("hostport".data, "h:1".data), ("status".data, "on".data)],
       mkNodeInfo [("hostport".data, "h:2".data), ("status".data, "off".data)]] :=
  (c8_listing_order _).2.2.2.2.1 _ (by decide)

/-- C6: exit status 2 is mapped to the distinct `notFound` error kind while
every other non-zero status yields the generic exit error carrying that
status; the two kinds are distinguishable, and the captured stdout and stderr
texts are returned on every path. -/
theorem c6_execute_classification (o : CmdOutcome) :
    (o.exitCode = 2 → (execute o).2.2 = some ExecError.notFound) ∧
    (¬(o.exitCode = 0) → ¬(o.exitCode = 2) →
      (execute o).2.2 = some (ExecError.exitError o.exitCode)) ∧
    (execute o).1 = o.stdout ∧ (execute o).2.1 = o.stderr ∧
    (∀ c, ¬(ExecError.notFound = ExecError.exitError c)) := by
  refine ⟨?_, ?_, rfl, rfl, fun c h => ExecError.noConfusion h⟩
  · intro h2
    simp [execute, classifyExit, h2]
  · intro h0 h2
    simp only [execute, classifyExit]
    rw [if_neg h0, if_neg h2]

theorem c6_witness :
    (execute ⟨2, "out".data, "err".data⟩).2.2 = some ExecError.notFound ∧
    (execute ⟨3, "out".data, "err".data⟩).2.2 = some (ExecError.exitError 3) :=
  ⟨(c6_execute_classification ⟨2, "out".data, "err".data⟩).1 rfl,
   (c6_execute_classification ⟨3, "out".data, "err".data⟩).2.1
     (by decide) (by decide)⟩

/-- C10: `getHostname` never goes out of bounds on a hostport containing a
colon: it returns the segment before the first colon as the hostname and the
segment between the first and second colon (or the rest, when there is no
second colon) as the port; consequently the per-node version projection
succeeds on any node whose hostport contains a colon. -/
theorem c10_getHostname_safe :
    (∀ s : Str, ':' ∈ s → (getHostname s).isSome) ∧
    (∀ a b : Str, ':' ∉ a → ':' ∉ b → getHostname (a ++ ':' :: b) = some (a, b)) ∧
    (∀ a b c : Str, ':' ∉ a → ':' ∉ b →
      getHostname (a ++ ':' :: (b ++ ':' :: c)) = some (a, b)) ∧
    (∀ mgm : Str, ∀ node : NodeLS, ':' ∈ node.hostPort →
      (parseVSNode mgm node).isSome) := by
  refine ⟨getHostname_isSome_of_mem, ?_, ?_, ?_⟩
  · intro a b ha hb
    unfold getHostname
    rw [splitSub_single_cons ':' a b ha,
      splitSub_not_occurs [':'] (by simp) b
        (fun hocc => hb ((occurs_single ':' b).mp hocc))]
  · intro a b c ha hb
    unfold getHostname
    rw [splitSub_single_cons ':' a (b ++ ':' :: c) ha, splitSub_single_cons ':' b c hb]
  · intro mgm node h
    exact parseVSNode_isSome mgm node (getHostname_isSome_of_mem _ h)

theorem c10_witness :
    (getHostname "abc.cern.ch:1095".data).isSome ∧
    (parseVSNode "4.8.78".data
      ⟨"abc.cern.ch:1095".data,
       ⟨⟨"geo".data,
         ⟨⟨"start".data, "4.8.78".data⟩, "kern".data, 0, 0, 0,
          "up%201%20days,".data, 0, ⟨"5.0".data⟩⟩⟩⟩⟩).isSome :=
  ⟨c10_getHostname_safe.1 _ (by decide),
   c10_getHostname_safe.2.2.2 _ _ (by decide)⟩

/-- C7, counterexample: the claim quantifies over every uptime string of the
form `...up%20<N>%20days,...`, but a leading portion that itself contains
`%20days,` makes the code truncate before the marker; the input below is of
that form with N = 10 (leading portion `%20days,`, trailing portion empty)
yet the derived uptime is `"0"`, not `"10"`. -/
theorem c7_counterexample :
    parseUptime ("%20days,".data ++ upSep ++ "10".data ++ daysSep ++ ([] : Str)) =
      "0".data ∧
    ¬("0".data = "10".data) := by
  constructor
  · decide
  · decide

/-- C7, amended claim: for an uptime string `pre ++ up%20 ++ N ++ %20days, ++ suf`
in which `%20days,` does not occur in `pre ++ up%20 ++ N` and `up%20` occurs
neither in `pre` nor in `N`, the derived uptime is exactly `N`; for every
string in which `up%20` does not occur at all the derived uptime is
deterministically `"0"`; and the uptime derivation never fails a node whose
hostport splits, so it never fails the batch. -/
theorem c7_amended :
    (∀ pre N suf : Str,
      containsSub daysSep (pre ++ upSep ++ N) = false →
      containsSub upSep pre = false →
      containsSub upSep N = false →
      parseUptime (pre ++ upSep ++ N ++ daysSep ++ suf) = N) ∧
    (∀ u : Str, containsSub upSep u = false → parseUptime u = "0".data) ∧
    (∀ mgm : Str, ∀ node : NodeLS, (getHostname node.hostPort).isSome →
      (parseVSNode mgm node).isSome) := by
  refine ⟨?_, ?_, parseVSNode_isSome⟩
  · intro pre N suf h1 h2 h3
    have h1q : ¬Occurs daysSep (pre ++ upSep ++ N) :=
      not_occurs_of_containsSub _ _ h1
    have h2q : ¬Occurs upSep pre := not_occurs_of_containsSub _ _ h2
    have h3q : ¬Occurs upSep N := not_occurs_of_containsSub _ _ h3
    have hds : daysSep ≠ [] := by decide
    have hus : upSep ≠ [] := by decide
    have step1 : splitSub (pre ++ upSep ++ N ++ daysSep ++ suf) daysSep =
        (pre ++ upSep ++ N) :: splitSub suf daysSep :=
      splitSub_append daysSep hds (pre ++ upSep ++ N) suf
        (borderFree_first daysSep hds borderFree_daysSep _ h1q suf)
    have step2 : splitSub (pre ++ upSep ++ N) upSep = pre :: splitSub N upSep :=
      splitSub_append upSep hus pre N
        (borderFree_first upSep hus borderFree_upSep pre h2q N)
    have step3 : splitSub N upSep = [N] := splitSub_not_occurs upSep hus N h3q
    simp only [parseUptime]
    rw [step1]
    simp only [List.headD_cons]
    rw [step2, step3]
  · intro u hu
    have huq : ¬Occurs upSep u := not_occurs_of_containsSub _ _ hu
    obtain ⟨p, t, hpt, hh⟩ := splitSub_head u daysSep
    have hpq : ¬Occurs upSep p := by
      rintro ⟨a, b, hab⟩
      exact huq ⟨a, b ++ t, by rw [hpt, hab]; simp⟩
    simp only [parseUptime]
    rw [hh, splitSub_not_occurs upSep (by decide) p hpq]

theorem c7_amended_witness :
    parseUptime ("16:13%20".data ++ upSep ++ "10".data ++ daysSep ++ "%20more".data) =
      "10".data ∧
    parseUptime "no marker here".data = "0".data :=
  ⟨c7_amended.1 "16:13%20".data "10".data "%20more".data
     (by decide) (by decide) (by decide),
   c7_amended.2.1 "no marker here".data (by decide)⟩

set_option maxRecDepth 4000 in
/-- C2, evaluation at a failing input: `nsactinfo` is declared before the loop
of `parseNSsInfo` and is never reset, and the append at the bottom of the loop
body fires on every later line while it is non-nil.  Feeding one qualifying
global-rollup activity line followed by one per-user line (uid = u1, not a
global rollup row) therefore returns TWO activity records — the second line,
which the claim says contributes no record, re-appends the stale record of the
first line. -/
theorem c2_code_bug :
    parseNSsInfo
        ("uid=all gid=all cmd=ls total=5 5s=1.00 60s=0.00 300s=0.00 3600s=0.00".data
          ++ '\n' ::
            "uid=u1 gid=u1 cmd=ls total=1 5s=0.00 60s=0.00 300s=0.00 3600s=0.00".data) =
      some ([],
        [⟨"all".data, "all".data, "ls".data, "5".data, "1.00".data, "0.00".data,
          "0.00".data, "0.00".data, [], [], [], []⟩,
         ⟨"all".data, "all".data, "ls".data, "5".data, "1.00".data, "0.00".data,
          "0.00".data, "0.00".data, [], [], [], []⟩]) ∧
    (getMap "uid=u1 gid=u1 cmd=ls total=1 5s=0.00 60s=0.00 300s=0.00 3600s=0.00".data).map
        (fun kv => mapGet kv "uid".data) = some "u1".data := by
  constructor
  · decide
  · decide

set_option maxRecDepth 4000 in
/-- C5, evaluation at a failing input: the same staleness applies to `nsinfo`;
one qualifying statistics line (uid=all, gid=all, no cmd, three keys) followed
by a non-qualifying per-user line returns TWO NamespaceRecords — the second
line, which the claim says contributes none, re-appends the stale record. -/
theorem c5_code_bug :
    parseNSsInfo
        ("uid=all gid=all ns.total.files=10".data ++ '\n' :: "uid=u1 gid=g1 x=1".data) =
      some ([{ emptyNSInfo with Total_files := "10".data },
             { emptyNSInfo with Total_files := "10".data }], []) ∧
    (getMap "uid=u1 gid=g1 x=1".data).map (fun kv => mapGet kv "uid".data) =
      some "u1".data := by
  constructor
  · decide
  · decide

end EosExporter
